import Mathlib

/-!
# Verification of the iyf-danmu-download barrage capture script

A shallow embedding of the pure/algorithmic core of `download_barrage.py`:

* `read_urls` — the URL Collector (merge explicit URLs with file-sourced
  lines, deduplicate keeping first occurrence);
* `sanitize_label` / `slug_from_url` — the Label Sanitizer;
* `handle_response` and the capture buffer of `collect_barrage_for_page`
  — the Response Capture Engine's per-response recording logic and its
  wait/settle/drain/close sequencing, embedded as an explicit step trace;
* the episode filter of `extract_episode_urls` — the Episode Resolver's
  cross-show filter and dedup;
* the per-entry loop of `main` — the Orchestrator: naming, skipping
  empty captures, record construction.

External collaborators (the browser, the JSON decoder, the Unicode NFKC
normalizer, the filesystem) are modelled as inputs: a network response
carries the result of attempting to JSON-decode its body, navigation
outcomes are an input per entry, and the NFKC normalization step is an
explicit function parameter.  Python's whitespace classes (`str.strip`,
regex `\s`) are modelled by `Char.isWhitespace`, the regex word class
`\w` by ASCII alphanumerics plus underscore, and `str.lower` by the
ASCII `Char.toLower`; the proofs below do not depend on where exactly
the boundary of these classes sits, only on their uniform use.
-/

namespace Barrage

/-- Test that `needle` occurs as a contiguous substring of `haystack`
(Python's `in` operator on `str`). -/
def containsSub (needle haystack : String) : Bool :=
  decide (needle.data <:+: haystack.data)

/-! ## URL Collector (`read_urls`, download_barrage.py lines 96–112) -/

/-- The file-sourced lines of `read_urls`: Python
`line.strip() for line in file.read_text().splitlines() if line.strip()`,
with `none` standing for a missing file (`args.url_file.exists()` false),
which contributes nothing. -/
def fileUrls : Option (List String) → List String
  | none => []
  | some lines => (lines.map String.trim).filter (fun l => l ≠ "")

/-- The dedup loop of `read_urls`: walk the merged list, keeping a `seen`
set (modelled as a list queried by membership); a URL already seen is
dropped, otherwise it is appended and marked seen. -/
def dedupLoop (seen : List String) : List String → List String
  | [] => []
  | u :: rest =>
    if u ∈ seen then dedupLoop seen rest
    else u :: dedupLoop (u :: seen) rest

/-- Model of `read_urls(args)`: explicit `--urls` first, then the file-sourced
lines, deduplicated keeping the first occurrence. -/
def read_urls (explicit : List String) (file : Option (List String)) : List String :=
  dedupLoop [] (explicit ++ fileUrls file)

/-- Spec-side formulation of "first occurrence wins" dedup, written from
the spec's words (merge order preserved, later duplicates silently
dropped): fold left, appending each URL not yet present. Used only to
state the refinement for the URL Collector claim. -/
def firstSeenDedup (l : List String) : List String :=
  l.foldl (fun acc u => if u ∈ acc then acc else acc ++ [u]) []

/-! ## Label Sanitizer (`sanitize_label`, lines 123–133, and
`slug_from_url`, lines 115–120) -/

/-- The Windows-reserved path characters removed by `sanitize_label`
(the regex character class `[\\/:*?"<>|]`). -/
def reservedChars : List Char := ['\\', '/', ':', '*', '?', '"', '<', '>', '|']

def isReserved (c : Char) : Bool := reservedChars.contains c

/-- The CJK ideograph range `一-鿿` of the allowed-character
class. -/
def isCJK (c : Char) : Bool :=
  decide (0x4e00 ≤ c.toNat) && decide (c.toNat ≤ 0x9fff)

/-- Model of the regex word class `\w`: alphanumerics and underscore. -/
def isWordChar (c : Char) : Bool := c.isAlphanum || c == '_'

/-- The allowed-character class `[\w.一-鿿-]` of
`sanitize_label`'s third substitution. -/
def isAllowedChar (c : Char) : Bool :=
  isWordChar c || c == '.' || c == '-' || isCJK c

/-- Python `str.strip` with a character class: drop matching characters
from both ends. -/
def stripEdge (p : Char → Bool) (l : List Char) : List Char :=
  ((l.dropWhile p).reverse.dropWhile p).reverse

/-- The separator class of the final `text.strip("._-")`. -/
def isPySep (c : Char) : Bool := c == '.' || c == '_' || c == '-'

/-- Replace every maximal run of characters satisfying `p` by the single
character `r` (regex `p+ → r`); `inRun` records whether the previous
character was part of a run. -/
def replaceRunsAux (p : Char → Bool) (r : Char) (inRun : Bool) :
    List Char → List Char
  | [] => []
  | c :: cs =>
    if p c then
      if inRun then replaceRunsAux p r true cs
      else r :: replaceRunsAux p r true cs
    else c :: replaceRunsAux p r false cs

def replaceRuns (p : Char → Bool) (r : Char) (l : List Char) : List Char :=
  replaceRunsAux p r false l

/-- The substitution pipeline of `sanitize_label` after the Unicode
normalization, in source order: reserved characters to `-`, whitespace
runs to `_`, disallowed runs to `-`, collapse `-` runs (`-{2,}` to `-`:
a length-one run maps to itself, so whole-run replacement agrees with
the source regex), collapse `_` runs, and `strip("._-")`. -/
def sanitizePost (text : List Char) : List Char :=
  let text := text.map (fun c => if isReserved c then '-' else c)
  let text := replaceRuns Char.isWhitespace '_' text
  let text := replaceRuns (fun c => !isAllowedChar c) '-' text
  let text := replaceRuns (fun c => c == '-') '-' text
  let text := replaceRuns (fun c => c == '_') '_' text
  stripEdge isPySep text

/-- The core of `sanitize_label` before the empty-fallback, on character
lists: `label.strip()`, then the external Unicode normalizer `nfkc`
(`unicodedata.normalize("NFKC", ·)`, a collaborator outside this
program, passed as a parameter), then the substitution pipeline. -/
def sanitizeCore (nfkc : List Char → List Char) (label : List Char) : List Char :=
  sanitizePost (nfkc (stripEdge Char.isWhitespace label))

/-- Model of `sanitize_label` (lines 123–133): the sanitizing pipeline, with the
fixed fallback `"episode"` when everything was stripped away. -/
def sanitize_label (nfkc : List Char → List Char) (label : String) : String :=
  let core := sanitizeCore nfkc label.data
  if core.isEmpty then "episode" else String.mk core

/-- Model of `re.sub(r"https?://", "", url)`: delete every occurrence of
`http://` or `https://`, scanning left to right. -/
def stripSchemes : List Char → List Char
  | [] => []
  | 'h' :: 't' :: 't' :: 'p' :: 's' :: ':' :: '/' :: '/' :: rest => stripSchemes rest
  | 'h' :: 't' :: 't' :: 'p' :: ':' :: '/' :: '/' :: rest => stripSchemes rest
  | c :: cs => c :: stripSchemes cs

/-- The character class `[a-zA-Z0-9._-]` kept by `slug_from_url`. -/
def isSlugChar (c : Char) : Bool :=
  c.isAlphanum || c == '.' || c == '_' || c == '-'

/-- The core of `slug_from_url` before the empty-fallback: drop URL
schemes, strip trailing slashes (`rstrip("/")`), turn the remaining
slashes into underscores, replace runs outside `[a-zA-Z0-9._-]` with
`-`. -/
def slugCore (url : String) : List Char :=
  let slug := stripSchemes url.data
  let slug := (slug.reverse.dropWhile (fun c => c == '/')).reverse
  let slug := slug.map (fun c => if c == '/' then '_' else c)
  replaceRuns (fun c => !isSlugChar c) '-' slug

/-- Model of `slug_from_url` (lines 115–120): the slug pipeline, with fallback
`"barrage"` when empty. -/
def slug_from_url (url : String) : String :=
  if (slugCore url).isEmpty then "barrage" else String.mk (slugCore url)

/-! ## Response Capture Engine (`collect_barrage_for_page`, lines 136–175)

A network response is modelled with the outcome of the external JSON
decoder attached (`response.json()` either yields a structured value or
raises, in which case `response.text()` is used); the engine itself only
branches on that outcome. -/

/-- A structured JSON value, as produced by the external decoder. -/
inductive JsonVal where
  | null
  | bool (b : Bool)
  | num (n : Int)
  | str (s : String)
  | arr (elems : List JsonVal)
  | obj (fields : List (String × JsonVal))

/-- The `body` field of a captured record: structured JSON when the
decode succeeded, otherwise the raw response text — mutually exclusive
variants of one field. -/
inductive BodyVal where
  | json (v : JsonVal)
  | text (s : String)

/-- A network response as observed by the page: its URL, status,
headers, raw body text, and the result of attempting to decode the body
as JSON (`some v` when `response.json()` succeeds, `none` when it
raises and `response.text()` is the fallback). -/
structure NetResponse where
  url : String
  status : Nat
  headers : List (String × String)
  bodyText : String
  bodyJson : Option JsonVal

/-- One recorded capture (the dict appended to `collected`). -/
structure CapturedResponse where
  api_url : String
  status : Nat
  headers : List (String × String)
  body : BodyVal

/-- Test `"getBarrage" in response.url` (line 144). -/
def matchesMarker (r : NetResponse) : Bool :=
  containsSub "getBarrage" r.url

/-- Model of `handle_response` (lines 143–157): a response whose URL lacks the
marker is ignored; otherwise one record is appended whose body is the
decoded JSON, falling back to the raw text when decoding raises. -/
def handle_response (r : NetResponse) : Option CapturedResponse :=
  if containsSub "getBarrage" r.url then
    some { api_url := r.url
           status := r.status
           headers := r.headers
           body := match r.bodyJson with
                   | some v => BodyVal.json v
                   | none => BodyVal.text r.bodyText }
  else
    none

/-- The record built for a matching response. -/
def recordOf (r : NetResponse) : CapturedResponse :=
  { api_url := r.url
    status := r.status
    headers := r.headers
    body := match r.bodyJson with
            | some v => BodyVal.json v
            | none => BodyVal.text r.bodyText }

/-- The `collected` buffer after all scheduled `handle_response` tasks
for the page's responses (in arrival order) have completed. -/
def pageCaptureResult (rs : List NetResponse) : List CapturedResponse :=
  rs.filterMap handle_response

/-! ### The wait / settle / drain / close sequencing (lines 159–175)

The engine's control flow after subscription is embedded as an explicit
step trace.  The environment decides whether the `networkidle`
navigation succeeds, whether a marker-matching response arrives within
the initial timeout, and whether any decode tasks were scheduled. -/

/-- One observable step of the engine. -/
inductive EngineStep where
  | navigate (url : String) (waitUntilNetworkidle : Bool)
  | waitForFirstMatch (timeout_ms : Nat)
  | settleWait (ms : Nat)
  | drainTasks
  | closePage
  deriving DecidableEq

/-- Lines 166–170: `wait_for_response` and the `wait_for_timeout`
settle window share one `try:` block with `except Exception: pass`.  If
the first match arrives within the timeout, the settle wait runs; if
`wait_for_response` times out, the raised exception jumps to the
`except` handler, skipping the settle wait. -/
def waitPhase (firstMatchWithinTimeout : Bool)
    (timeout_s extra_wait_s : Nat) : List EngineStep :=
  if firstMatchWithinTimeout then
    [EngineStep.waitForFirstMatch (timeout_s * 1000),
     EngineStep.settleWait (extra_wait_s * 1000)]
  else
    [EngineStep.waitForFirstMatch (timeout_s * 1000)]

/-- The full step trace of one successful page visit of
`collect_barrage_for_page`: navigate (retrying with the default load
condition if the `networkidle` navigation raises), wait phase, drain
the scheduled decode tasks (`asyncio.gather`, only when `tasks` is
non-empty), close the page. -/
def collectTrace (url : String) (timeout_s extra_wait_s : Nat)
    (navIdleOk firstMatch tasksScheduled : Bool) : List EngineStep :=
  (if navIdleOk then [EngineStep.navigate url true]
   else [EngineStep.navigate url true, EngineStep.navigate url false]) ++
  waitPhase firstMatch timeout_s extra_wait_s ++
  (if tasksScheduled then [EngineStep.drainTasks] else []) ++
  [EngineStep.closePage]

/-! ## Episode Resolver (`extract_episode_urls`, lines 178–214)

Navigation and DOM querying are external; the resolver's algorithmic
core takes the listing URL's parsed path (`urlparse(playlist_url).path`)
and the extracted `(href, text)` anchor pairs as inputs. -/

/-- One anchor extracted by `eval_on_selector_all` (already trimmed by
the in-page JavaScript), with `""` for a missing href or text. -/
structure Anchor where
  href : String
  text : String
  deriving DecidableEq

/-- An `{url, title}` entry of the resolver's result (also used for the
Orchestrator's entry list). -/
structure Entry where
  url : String
  title : String
  deriving DecidableEq

/-- Python `str.split` with a one-character separator: split at every
occurrence, keeping empty pieces (`"".split(sep) == [""]`); `acc` holds
the reversed characters of the piece being read. -/
def splitOnCharAux (sep : Char) : List Char → List Char → List String
  | [], acc => [String.mk acc.reverse]
  | c :: cs, acc =>
    if c == sep then String.mk acc.reverse :: splitOnCharAux sep cs []
    else splitOnCharAux sep cs (c :: acc)

/-- Model of `parsed.path.rstrip("/").split("/")[-1]`: the last segment of the
path after stripping trailing slashes (`split` always yields a
nonempty list, so the `getLast?` default is never taken). -/
def lastSegment (path : String) : String :=
  let stripped := (path.data.reverse.dropWhile (fun c => c == '/')).reverse
  match (splitOnCharAux '/' stripped []).getLast? with
  | some s => s
  | none => ""

/-- Line 199: the listing slug is the last path segment when the listing
URL's own path contains `/play/`, otherwise `None`. -/
def base_slug (path : String) : Option String :=
  if containsSub "/play/" path then some (lastSegment path) else none

/-- Python truthiness of `base_slug` (line 207's `if base_slug and …`):
not `None` and not the empty string. -/
def slugTruthy : Option String → Bool
  | some s => s ≠ ""
  | none => false

/-- The filter/dedup loop of `extract_episode_urls` (lines 202–213):
skip empty hrefs; when a truthy slug was derived, skip hrefs not
containing `f"/play/{base_slug}"` (the cross-show recommendation
filter); dedup by href, first occurrence wins. -/
def episodeLoop (slug : Option String) (seen : List String) :
    List Anchor → List Entry
  | [] => []
  | a :: rest =>
    if a.href = "" then episodeLoop slug seen rest
    else if slugTruthy slug && !containsSub ("/play/" ++ slug.getD "") a.href then
      episodeLoop slug seen rest
    else if a.href ∈ seen then episodeLoop slug seen rest
    else { url := a.href, title := a.text } :: episodeLoop slug (a.href :: seen) rest

/-- The algorithmic core of `extract_episode_urls`, as a function of the
listing URL's parsed path and the extracted anchors (the early
`if not anchors: return []` return agrees with the loop on `[]`). -/
def extract_episode_urls (path : String) (anchors : List Anchor) : List Entry :=
  if anchors.isEmpty then [] else episodeLoop (base_slug path) [] anchors

/-! ## Orchestrator (the per-entry loop of `main`, lines 295–340) -/

/-- Python `f"{n:02d}"`: decimal, left-padded with `0` to width two. -/
def pad2 (n : Nat) : String :=
  let s := toString n
  if s.length < 2 then "0" ++ s else s

/-- Model of Python `str.lower` (ASCII case folding). -/
def lowerStr (s : String) : String := String.mk (s.data.map Char.toLower)

/-- Line 319: the sanitized title is a trivial duplicate of the index
when it is nonempty and lowercases to `f"{idx:02d}"` or
`f"ep{idx:02d}"`. -/
def titleIsDuplicate (title : String) (idx : Nat) : Bool :=
  title ≠ "" && (lowerStr title == pad2 idx || lowerStr title == "ep" ++ pad2 idx)

/-- Line 320: the per-entry label — the sanitized title unless it is
empty or a trivial duplicate of the index, in which case `ep{idx:02d}`. -/
def entryLabel (title : String) (idx : Nat) : String :=
  if title ≠ "" && !titleIsDuplicate title idx then title else "ep" ++ pad2 idx

/-- Lines 316–329: the output filename.  `seriesLabel` is the sanitized
`--series-name` (or `""` when none was given): when nonempty it is the
prefix, otherwise the two-digit index is. -/
def outName (seriesLabel : String) (idx : Nat) (title : String) : String :=
  let label := entryLabel title idx
  let parts := if seriesLabel ≠ "" then [seriesLabel, label]
               else [pad2 idx, label]
  String.intercalate "_" parts ++ "_barrage.json"

/-- The JSON payload written for one captured entry (lines 331–338). -/
structure OutputRecord where
  source_page : String
  title : String
  series : String
  captured_at : String
  count : Nat
  requests : List CapturedResponse

/-- Lines 331–338: the payload, with `count` the number of captured
requests and `captured_at` the timestamp taken once at run start
(line 225). -/
def buildRecord (url title series timestamp : String)
    (barrages : List CapturedResponse) : OutputRecord :=
  { source_page := url
    title := title
    series := series
    captured_at := timestamp
    count := barrages.length
    requests := barrages }

/-- The navigation outcome of one page visit: `networkidle` navigation
succeeds; it raises but the plain `goto` retry succeeds; or both raise. -/
inductive NavOutcome where
  | idleOk
  | idleFailPlainOk
  | bothFail
  deriving DecidableEq

/-- The environment of one page visit: how navigation goes, and which
responses the page receives when it loads. -/
structure VisitEnv where
  nav : NavOutcome
  responses : List NetResponse

/-- The observable result of `collect_barrage_for_page` for one entry:
the capture buffer when the visit completes, or the propagated
navigation exception when both `goto` attempts raise (lines 161–164:
only the `networkidle` attempt is guarded; line 310: the caller does
not catch it). -/
def collectResult (env : VisitEnv) : Except Unit (List CapturedResponse) :=
  match env.nav with
  | NavOutcome.bothFail => Except.error ()
  | _ => Except.ok (pageCaptureResult env.responses)

/-- The observable outcome of the Orchestrator's per-entry loop:
which entries were visited (the `[i/total] …` progress line precedes
the visit), which `(filename, payload)` pairs were written, and whether
an uncaught exception aborted the run. -/
structure RunResult where
  visited : List String
  written : List (String × OutputRecord)
  aborted : Bool

/-- The per-entry loop of `main` (lines 306–340) from index `idx`:
visit each entry in order; an uncaught navigation exception aborts the
run (no later entry is visited); an empty capture buffer is logged and
skipped (no file); otherwise one record is written under the computed
name.  `series_name` is `args.series_name or ""`. -/
def runLoopFrom (nfkc : List Char → List Char) (series_name timestamp : String)
    (idx : Nat) : List (Entry × VisitEnv) → RunResult
  | [] => { visited := [], written := [], aborted := false }
  | (entry, env) :: rest =>
    match collectResult env with
    | Except.error _ =>
      { visited := [entry.url], written := [], aborted := true }
    | Except.ok barrages =>
      let tail := runLoopFrom nfkc series_name timestamp (idx + 1) rest
      if barrages.isEmpty then
        { visited := entry.url :: tail.visited
          written := tail.written
          aborted := tail.aborted }
      else
        let title := if entry.title ≠ "" then sanitize_label nfkc entry.title else ""
        let seriesLabel := if series_name ≠ "" then sanitize_label nfkc series_name else ""
        let name := outName seriesLabel idx title
        let record := buildRecord entry.url entry.title series_name timestamp barrages
        { visited := entry.url :: tail.visited
          written := (name, record) :: tail.written
          aborted := tail.aborted }

/-- The whole per-entry loop (`enumerate(unique_entries, start=1)`). -/
def runLoop (nfkc : List Char → List Char) (series_name timestamp : String)
    (entries : List (Entry × VisitEnv)) : RunResult :=
  runLoopFrom nfkc series_name timestamp 1 entries

/-! ### Concrete sample data (shared by the closed instances below) -/

/-- A marker-matching response used in concrete runs. -/
def sampleBarrageResponse : NetResponse :=
  { url := "https://m10.iyf.tv/v3/video/getBarrage?vid=1"
    status := 200
    headers := [("content-type", "text/plain")]
    bodyText := "ok"
    bodyJson := none }

/-- A visit whose `networkidle` navigation succeeds. -/
def envOk (rs : List NetResponse) : VisitEnv :=
  { nav := NavOutcome.idleOk, responses := rs }

/-- A visit whose `networkidle` navigation raises but whose plain
`goto` retry succeeds. -/
def envRetryOk (rs : List NetResponse) : VisitEnv :=
  { nav := NavOutcome.idleFailPlainOk, responses := rs }

/-- A visit in which both `goto` attempts raise. -/
def envBothFail : VisitEnv :=
  { nav := NavOutcome.bothFail, responses := [] }

end Barrage

/-! ## Theorems -/

namespace Barrage

theorem mem_dedupLoop (seen : List String) (l : List String) (x : String) :
    x ∈ dedupLoop seen l ↔ x ∈ l ∧ x ∉ seen := by
  induction l generalizing seen with
  | nil => simp [dedupLoop]
  | cons u rest ih =>
    by_cases hu : u ∈ seen
    · rw [show dedupLoop seen (u :: rest) = dedupLoop seen rest from by
        simp [dedupLoop, hu], ih]
      constructor
      · rintro ⟨hx, hns⟩
        exact ⟨List.mem_cons_of_mem _ hx, hns⟩
      · rintro ⟨hx, hns⟩
        rcases List.mem_cons.mp hx with rfl | hx
        · exact absurd hu hns
        · exact ⟨hx, hns⟩
    · rw [show dedupLoop seen (u :: rest) = u :: dedupLoop (u :: seen) rest from by
        simp [dedupLoop, hu]]
      constructor
      · intro hmem
        rcases List.mem_cons.mp hmem with rfl | hmem
        · exact ⟨List.mem_cons_self _ _, hu⟩
        · obtain ⟨hx, hns⟩ := (ih (u :: seen)).mp hmem
          exact ⟨List.mem_cons_of_mem _ hx,
            fun h => hns (List.mem_cons_of_mem _ h)⟩
      · rintro ⟨hx, hns⟩
        rcases List.mem_cons.mp hx with rfl | hx
        · exact List.mem_cons_self _ _
        · by_cases hxu : x = u
          · exact hxu ▸ List.mem_cons_self _ _
          · refine List.mem_cons_of_mem _ ((ih (u :: seen)).mpr ⟨hx, ?_⟩)
            intro h
            rcases List.mem_cons.mp h with h | h
            · exact hxu h
            · exact hns h

theorem nodup_dedupLoop (seen : List String) (l : List String) :
    (dedupLoop seen l).Nodup := by
  induction l generalizing seen with
  | nil => simp [dedupLoop]
  | cons u rest ih =>
    by_cases hu : u ∈ seen
    · simpa [dedupLoop, if_pos hu] using ih seen
    · simp only [dedupLoop, if_neg hu]
      refine List.nodup_cons.mpr ⟨?_, ih (u :: seen)⟩
      intro hmem
      exact ((mem_dedupLoop _ _ _).mp hmem).2 (List.mem_cons_self u seen)

theorem dedupLoop_sublist (seen : List String) (l : List String) :
    (dedupLoop seen l).Sublist l := by
  induction l generalizing seen with
  | nil => simp [dedupLoop]
  | cons u rest ih =>
    by_cases hu : u ∈ seen
    · simp only [dedupLoop, if_pos hu]
      exact (ih seen).cons u
    · simp only [dedupLoop, if_neg hu]
      exact List.Sublist.cons₂ u (ih (u :: seen))

theorem foldl_dedup_eq_dedupLoop (l : List String) (seen acc : List String)
    (hiff : ∀ x, x ∈ seen ↔ x ∈ acc) :
    l.foldl (fun acc u => if u ∈ acc then acc else acc ++ [u]) acc
      = acc ++ dedupLoop seen l := by
  induction l generalizing seen acc with
  | nil => simp [dedupLoop]
  | cons u rest ih =>
    by_cases hu : u ∈ seen
    · have hacc : u ∈ acc := (hiff u).mp hu
      simp only [List.foldl_cons, if_pos hacc, dedupLoop, if_pos hu]
      exact ih seen acc hiff
    · have hacc : u ∉ acc := fun h => hu ((hiff u).mpr h)
      simp only [List.foldl_cons, if_neg hacc, dedupLoop, if_neg hu]
      rw [ih (u :: seen) (acc ++ [u]) (fun x => by
        constructor
        · intro h
          rcases List.mem_cons.mp h with rfl | h
          · exact List.mem_append.mpr (Or.inr (List.mem_singleton.mpr rfl))
          · exact List.mem_append.mpr (Or.inl ((hiff x).mp h))
        · intro h
          rcases List.mem_append.mp h with h | h
          · exact List.mem_cons_of_mem _ ((hiff x).mpr h)
          · exact (List.mem_singleton.mp h) ▸ List.mem_cons_self _ _)]
      simp

theorem read_urls_eq_firstSeenDedup (explicit : List String)
    (file : Option (List String)) :
    read_urls explicit file = firstSeenDedup (explicit ++ fileUrls file) := by
  unfold read_urls firstSeenDedup
  rw [foldl_dedup_eq_dedupLoop (explicit ++ fileUrls file) [] [] (fun x => by simp)]
  simp

theorem handle_response_eq (r : NetResponse) :
    handle_response r = if matchesMarker r then some (recordOf r) else none := by
  simp [handle_response, matchesMarker, recordOf]

theorem pageCaptureResult_eq (rs : List NetResponse) :
    pageCaptureResult rs = (rs.filter matchesMarker).map recordOf := by
  induction rs with
  | nil => rfl
  | cons r rest ih =>
    by_cases h : matchesMarker r
    · simp [pageCaptureResult, handle_response_eq, h, List.filter_cons] at ih ⊢
      exact ih
    · simp [pageCaptureResult, handle_response_eq, h, List.filter_cons] at ih ⊢
      exact ih

end Barrage

/-- Claim C6: The URL Collector (`read_urls`) merges the explicit URL list
first, then the (possibly missing, then empty) file's lines with blank
lines dropped and whitespace trimmed; the result agrees with first-seen
dedup of that merged sequence: it contains each distinct URL of the
merged sequence exactly once (`Nodup` plus membership equivalence), in
first-seen order (it is a sublist of the merged sequence and equals its
fold-left first-occurrence-wins dedup), later duplicates silently
dropped. -/
theorem C6_read_urls_dedup (explicit : List String) (file : Option (List String)) :
    Barrage.read_urls explicit file
        = Barrage.firstSeenDedup (explicit ++ Barrage.fileUrls file)
      ∧ (Barrage.read_urls explicit file).Nodup
      ∧ (Barrage.read_urls explicit file).Sublist (explicit ++ Barrage.fileUrls file)
      ∧ ∀ u, u ∈ Barrage.read_urls explicit file ↔ u ∈ explicit ++ Barrage.fileUrls file := by
  refine ⟨Barrage.read_urls_eq_firstSeenDedup explicit file,
    Barrage.nodup_dedupLoop [] _, Barrage.dedupLoop_sublist [] _, fun u => ?_⟩
  rw [Barrage.read_urls, Barrage.mem_dedupLoop]
  simp

/-- Claim C1, counterexample: The claim says the settle window is
observed on the timeout path as well: with the default 15 s timeout and
3 s extra-wait, a visit in which no matching response arrives within
the timeout would have to contain a settle wait.  It does not: the
timeout exception jumps to `except: pass`, skipping
`wait_for_timeout(extra_wait)`. -/
theorem C1_no_settle_on_timeout_path :
    ¬ ∃ ms, Barrage.EngineStep.settleWait ms ∈
      Barrage.collectTrace "https://www.iyf.tv/play/x" 15 3 true false true := by
  rintro ⟨ms, hmem⟩
  simp [Barrage.collectTrace, Barrage.waitPhase] at hmem

/-- Claim C1, amended: The settle window is observed only on the
first-match path: when a matching response arrives within the initial
timeout, the engine performs the fixed `extra_wait` settle wait before
draining decode tasks and closing the page; when the initial timeout
expires with no match, the `except: pass` handler skips the settle
wait, and the engine proceeds directly to draining decode tasks and
closing the page.  In both cases the trace ends with the drain (when
tasks were scheduled) followed by the page close. -/
theorem C1_settle_only_after_first_match (url : String)
    (timeout_s extra_wait_s : Nat) (navIdleOk tasksScheduled : Bool) :
    (Barrage.EngineStep.settleWait (extra_wait_s * 1000) ∈
        Barrage.collectTrace url timeout_s extra_wait_s navIdleOk true tasksScheduled)
      ∧ (∀ ms, Barrage.EngineStep.settleWait ms ∉
          Barrage.collectTrace url timeout_s extra_wait_s navIdleOk false tasksScheduled)
      ∧ ∀ firstMatch, ∃ pre,
          Barrage.collectTrace url timeout_s extra_wait_s navIdleOk firstMatch tasksScheduled
            = pre ++ (if tasksScheduled then
                [Barrage.EngineStep.drainTasks, Barrage.EngineStep.closePage]
              else [Barrage.EngineStep.closePage]) := by
  refine ⟨?_, ?_, ?_⟩
  · simp [Barrage.collectTrace, Barrage.waitPhase]
  · intro ms hmem
    cases navIdleOk <;> cases tasksScheduled <;>
      simp [Barrage.collectTrace, Barrage.waitPhase] at hmem
  · intro firstMatch
    refine ⟨(if navIdleOk then [Barrage.EngineStep.navigate url true]
      else [Barrage.EngineStep.navigate url true, Barrage.EngineStep.navigate url false]) ++
      Barrage.waitPhase firstMatch timeout_s extra_wait_s, ?_⟩
    cases tasksScheduled <;> simp [Barrage.collectTrace]

/-- Claim C3: For every sequence of network responses, the capture buffer
records exactly one `CapturedResponse` per response whose URL contains
the marker `"getBarrage"` (it equals the marker-filtered list mapped
through the record builder); each record keeps the response's original
URL, status and headers, and its body is the structured JSON value when
the body decodes as JSON and otherwise the raw text verbatim (mutually
exclusive variants); in particular, for one matching JSON response and
one matching non-JSON response the `PageCaptureResult` is exactly those
two records, one structured, one raw-text. -/
theorem C3_capture_records (rs : List Barrage.NetResponse) :
    Barrage.pageCaptureResult rs
        = (rs.filter Barrage.matchesMarker).map Barrage.recordOf
      ∧ (∀ r : Barrage.NetResponse,
          (Barrage.recordOf r).api_url = r.url
          ∧ (Barrage.recordOf r).status = r.status
          ∧ (Barrage.recordOf r).headers = r.headers
          ∧ (Barrage.recordOf r).body = (match r.bodyJson with
              | some v => Barrage.BodyVal.json v
              | none => Barrage.BodyVal.text r.bodyText))
      ∧ Barrage.pageCaptureResult
          [{ url := "https://m10.iyf.tv/v3/video/getBarrage?x=1"
             status := 200
             headers := [("content-type", "application/json")]
             bodyText := "\x7b\x7d"
             bodyJson := some (Barrage.JsonVal.obj [("code", Barrage.JsonVal.num 0)]) },
           { url := "https://m10.iyf.tv/v3/video/getBarrage?x=2"
             status := 503
             headers := [("content-type", "text/html")]
             bodyText := "<html>busy</html>"
             bodyJson := none }]
        = [{ api_url := "https://m10.iyf.tv/v3/video/getBarrage?x=1"
             status := 200
             headers := [("content-type", "application/json")]
             body := Barrage.BodyVal.json
               (Barrage.JsonVal.obj [("code", Barrage.JsonVal.num 0)]) },
           { api_url := "https://m10.iyf.tv/v3/video/getBarrage?x=2"
             status := 503
             headers := [("content-type", "text/html")]
             body := Barrage.BodyVal.text "<html>busy</html>" }] := by
  refine ⟨Barrage.pageCaptureResult_eq rs, fun r => ⟨rfl, rfl, rfl, rfl⟩, ?_⟩
  rfl

namespace Barrage

theorem runLoopFrom_cons_bothFail (nfkc : List Char → List Char)
    (sn ts : String) (idx : Nat) (e : Entry) (env : VisitEnv)
    (rest : List (Entry × VisitEnv)) (h : env.nav = NavOutcome.bothFail) :
    runLoopFrom nfkc sn ts idx ((e, env) :: rest)
      = { visited := [e.url], written := [], aborted := true } := by
  simp [runLoopFrom, collectResult, h]

theorem runLoopFrom_cons_ok (nfkc : List Char → List Char)
    (sn ts : String) (idx : Nat) (e : Entry) (env : VisitEnv)
    (rest : List (Entry × VisitEnv)) (h : env.nav ≠ NavOutcome.bothFail) :
    (runLoopFrom nfkc sn ts idx ((e, env) :: rest)).visited
        = e.url :: (runLoopFrom nfkc sn ts (idx + 1) rest).visited
      ∧ (runLoopFrom nfkc sn ts idx ((e, env) :: rest)).aborted
        = (runLoopFrom nfkc sn ts (idx + 1) rest).aborted := by
  have hres : collectResult env = Except.ok (pageCaptureResult env.responses) := by
    cases hn : env.nav with
    | bothFail => exact absurd hn h
    | idleOk => simp [collectResult, hn]
    | idleFailPlainOk => simp [collectResult, hn]
  by_cases he : (pageCaptureResult env.responses).isEmpty
  · simp [runLoopFrom, hres, he]
  · simp [runLoopFrom, hres, he]

theorem runLoopFrom_no_abort (nfkc : List Char → List Char)
    (sn ts : String) (l : List (Entry × VisitEnv)) (idx : Nat)
    (hnav : ∀ p ∈ l, p.2.nav ≠ NavOutcome.bothFail) :
    (runLoopFrom nfkc sn ts idx l).aborted = false
      ∧ (runLoopFrom nfkc sn ts idx l).visited = l.map (fun p => p.1.url) := by
  induction l generalizing idx with
  | nil => exact ⟨rfl, rfl⟩
  | cons p rest ih =>
    obtain ⟨e, env⟩ := p
    have hne : env.nav ≠ NavOutcome.bothFail :=
      hnav (e, env) (List.mem_cons_self _ _)
    obtain ⟨hv, ha⟩ := runLoopFrom_cons_ok nfkc sn ts idx e env rest hne
    obtain ⟨iha, ihv⟩ := ih (idx + 1)
      (fun q hq => hnav q (List.mem_cons_of_mem _ hq))
    refine ⟨?_, ?_⟩
    · rw [ha, iha]
    · rw [hv, ihv]
      rfl

theorem runLoopFrom_count_invariant (nfkc : List Char → List Char)
    (sn ts : String) (l : List (Entry × VisitEnv)) (idx : Nat)
    (r : String × OutputRecord) (hr : r ∈ (runLoopFrom nfkc sn ts idx l).written) :
    r.2.count = r.2.requests.length ∧ r.2.captured_at = ts := by
  induction l generalizing idx with
  | nil => simp [runLoopFrom] at hr
  | cons p rest ih =>
    obtain ⟨e, env⟩ := p
    cases hn : env.nav with
    | bothFail =>
      rw [runLoopFrom_cons_bothFail nfkc sn ts idx e env rest hn] at hr
      simp at hr
    | idleOk =>
      have hres : collectResult env = Except.ok (pageCaptureResult env.responses) := by
        simp [collectResult, hn]
      by_cases he : (pageCaptureResult env.responses).isEmpty
      · rw [show (runLoopFrom nfkc sn ts idx ((e, env) :: rest)).written
            = (runLoopFrom nfkc sn ts (idx + 1) rest).written from by
          simp [runLoopFrom, hres, he]] at hr
        exact ih (idx + 1) hr
      · rw [show (runLoopFrom nfkc sn ts idx ((e, env) :: rest)).written
            = (outName (if sn ≠ "" then sanitize_label nfkc sn else "") idx
                 (if e.title ≠ "" then sanitize_label nfkc e.title else ""),
               buildRecord e.url e.title sn ts (pageCaptureResult env.responses))
              :: (runLoopFrom nfkc sn ts (idx + 1) rest).written from by
          simp [runLoopFrom, hres, he]] at hr
        rcases List.mem_cons.mp hr with rfl | hr
        · exact ⟨rfl, rfl⟩
        · exact ih (idx + 1) hr
    | idleFailPlainOk =>
      have hres : collectResult env = Except.ok (pageCaptureResult env.responses) := by
        simp [collectResult, hn]
      by_cases he : (pageCaptureResult env.responses).isEmpty
      · rw [show (runLoopFrom nfkc sn ts idx ((e, env) :: rest)).written
            = (runLoopFrom nfkc sn ts (idx + 1) rest).written from by
          simp [runLoopFrom, hres, he]] at hr
        exact ih (idx + 1) hr
      · rw [show (runLoopFrom nfkc sn ts idx ((e, env) :: rest)).written
            = (outName (if sn ≠ "" then sanitize_label nfkc sn else "") idx
                 (if e.title ≠ "" then sanitize_label nfkc e.title else ""),
               buildRecord e.url e.title sn ts (pageCaptureResult env.responses))
              :: (runLoopFrom nfkc sn ts (idx + 1) rest).written from by
          simp [runLoopFrom, hres, he]] at hr
        rcases List.mem_cons.mp hr with rfl | hr
        · exact ⟨rfl, rfl⟩
        · exact ih (idx + 1) hr

theorem runLoopFrom_written_source (nfkc : List Char → List Char)
    (sn ts : String) (l : List (Entry × VisitEnv)) (idx : Nat)
    (r : String × OutputRecord) (hr : r ∈ (runLoopFrom nfkc sn ts idx l).written) :
    ∃ p ∈ l, r.2.source_page = p.1.url ∧ pageCaptureResult p.2.responses ≠ [] := by
  induction l generalizing idx with
  | nil => simp [runLoopFrom] at hr
  | cons p rest ih =>
    obtain ⟨e, env⟩ := p
    cases hn : env.nav with
    | bothFail =>
      rw [runLoopFrom_cons_bothFail nfkc sn ts idx e env rest hn] at hr
      simp at hr
    | idleOk =>
      have hres : collectResult env = Except.ok (pageCaptureResult env.responses) := by
        simp [collectResult, hn]
      by_cases he : (pageCaptureResult env.responses).isEmpty
      · rw [show (runLoopFrom nfkc sn ts idx ((e, env) :: rest)).written
            = (runLoopFrom nfkc sn ts (idx + 1) rest).written from by
          simp [runLoopFrom, hres, he]] at hr
        obtain ⟨q, hq, hsp⟩ := ih (idx + 1) hr
        exact ⟨q, List.mem_cons_of_mem _ hq, hsp⟩
      · rw [show (runLoopFrom nfkc sn ts idx ((e, env) :: rest)).written
            = (outName (if sn ≠ "" then sanitize_label nfkc sn else "") idx
                 (if e.title ≠ "" then sanitize_label nfkc e.title else ""),
               buildRecord e.url e.title sn ts (pageCaptureResult env.responses))
              :: (runLoopFrom nfkc sn ts (idx + 1) rest).written from by
          simp [runLoopFrom, hres, he]] at hr
        rcases List.mem_cons.mp hr with rfl | hr
        · refine ⟨(e, env), List.mem_cons_self _ _, rfl, ?_⟩
          intro hnil
          rw [hnil] at he
          exact he rfl
        · obtain ⟨q, hq, hsp⟩ := ih (idx + 1) hr
          exact ⟨q, List.mem_cons_of_mem _ hq, hsp⟩
    | idleFailPlainOk =>
      have hres : collectResult env = Except.ok (pageCaptureResult env.responses) := by
        simp [collectResult, hn]
      by_cases he : (pageCaptureResult env.responses).isEmpty
      · rw [show (runLoopFrom nfkc sn ts idx ((e, env) :: rest)).written
            = (runLoopFrom nfkc sn ts (idx + 1) rest).written from by
          simp [runLoopFrom, hres, he]] at hr
        obtain ⟨q, hq, hsp⟩ := ih (idx + 1) hr
        exact ⟨q, List.mem_cons_of_mem _ hq, hsp⟩
      · rw [show (runLoopFrom nfkc sn ts idx ((e, env) :: rest)).written
            = (outName (if sn ≠ "" then sanitize_label nfkc sn else "") idx
                 (if e.title ≠ "" then sanitize_label nfkc e.title else ""),
               buildRecord e.url e.title sn ts (pageCaptureResult env.responses))
              :: (runLoopFrom nfkc sn ts (idx + 1) rest).written from by
          simp [runLoopFrom, hres, he]] at hr
        rcases List.mem_cons.mp hr with rfl | hr
        · refine ⟨(e, env), List.mem_cons_self _ _, rfl, ?_⟩
          intro hnil
          rw [hnil] at he
          exact he rfl
        · obtain ⟨q, hq, hsp⟩ := ih (idx + 1) hr
          exact ⟨q, List.mem_cons_of_mem _ hq, hsp⟩

end Barrage

/-- Claim C2, counterexample: A single target page whose navigation
fails under both the network-settled (`networkidle`) condition and the
plain load condition does abort the run: with a first entry whose two
`goto` attempts both raise and a second healthy entry, the loop stops
at the first entry (the exception from the unguarded retry propagates
out of `main`'s per-entry loop) and the second entry is never visited. -/
theorem C2_both_nav_failures_abort_run :
    (Barrage.runLoop id "" "2024-01-01T00:00:00+00:00"
        [({ url := "https://www.iyf.tv/play/aaa", title := "" }, Barrage.envBothFail),
         ({ url := "https://www.iyf.tv/play/bbb", title := "" },
          Barrage.envOk [Barrage.sampleBarrageResponse])]).aborted = true
      ∧ (Barrage.runLoop id "" "2024-01-01T00:00:00+00:00"
          [({ url := "https://www.iyf.tv/play/aaa", title := "" }, Barrage.envBothFail),
           ({ url := "https://www.iyf.tv/play/bbb", title := "" },
            Barrage.envOk [Barrage.sampleBarrageResponse])]).visited
        = ["https://www.iyf.tv/play/aaa"]
      ∧ "https://www.iyf.tv/play/bbb" ∉
          (Barrage.runLoop id "" "2024-01-01T00:00:00+00:00"
            [({ url := "https://www.iyf.tv/play/aaa", title := "" }, Barrage.envBothFail),
             ({ url := "https://www.iyf.tv/play/bbb", title := "" },
              Barrage.envOk [Barrage.sampleBarrageResponse])]).visited := by
  refine ⟨rfl, rfl, ?_⟩
  decide

/-- Claim C2, amended: A navigation failure under the settled-network
condition alone is recovered locally by the plain-load retry and never
aborts the run; as long as no entry fails both attempts, the run
completes unaborted and visits every entry in list order.  (Only when
the plain retry also raises does the exception propagate and abort the
run, as the counterexample shows.) -/
theorem C2_run_survives_single_nav_failures (nfkc : List Char → List Char)
    (series_name timestamp : String) (entries : List (Barrage.Entry × Barrage.VisitEnv))
    (hnav : ∀ p ∈ entries, p.2.nav ≠ Barrage.NavOutcome.bothFail) :
    (Barrage.runLoop nfkc series_name timestamp entries).aborted = false
      ∧ (Barrage.runLoop nfkc series_name timestamp entries).visited
        = entries.map (fun p => p.1.url) := by
  exact Barrage.runLoopFrom_no_abort nfkc series_name timestamp entries 1 hnav

/-- Witness for C2 (amended): a concrete two-entry run in which the
first entry needs the plain-load retry; the run is unaborted and both
entries are visited. -/
theorem C2_run_survives_single_nav_failures_witness :
    (Barrage.runLoop id "" "2024-01-01T00:00:00+00:00"
        [({ url := "https://www.iyf.tv/play/aaa", title := "" },
          Barrage.envRetryOk []),
         ({ url := "https://www.iyf.tv/play/bbb", title := "" },
          Barrage.envOk [Barrage.sampleBarrageResponse])]).aborted = false
      ∧ (Barrage.runLoop id "" "2024-01-01T00:00:00+00:00"
          [({ url := "https://www.iyf.tv/play/aaa", title := "" },
            Barrage.envRetryOk []),
           ({ url := "https://www.iyf.tv/play/bbb", title := "" },
            Barrage.envOk [Barrage.sampleBarrageResponse])]).visited
        = ["https://www.iyf.tv/play/aaa", "https://www.iyf.tv/play/bbb"] := by
  exact C2_run_survives_single_nav_failures id "" "2024-01-01T00:00:00+00:00"
    [({ url := "https://www.iyf.tv/play/aaa", title := "" },
      Barrage.envRetryOk []),
     ({ url := "https://www.iyf.tv/play/bbb", title := "" },
      Barrage.envOk [Barrage.sampleBarrageResponse])]
    (by decide)

/-- Claim C5: Every record written during one run has `count` equal to
the number of elements of its `requests` field, and `captured_at` equal
to the single timestamp taken once at run start and passed unchanged to
every iteration of the loop. -/
theorem C5_count_and_timestamp_invariant (nfkc : List Char → List Char)
    (series_name timestamp : String)
    (entries : List (Barrage.Entry × Barrage.VisitEnv))
    (r : String × Barrage.OutputRecord)
    (hr : r ∈ (Barrage.runLoop nfkc series_name timestamp entries).written) :
    r.2.count = r.2.requests.length ∧ r.2.captured_at = timestamp := by
  exact Barrage.runLoopFrom_count_invariant nfkc series_name timestamp entries 1 r hr

/-- Witness for C5: the record written by a concrete one-entry run has
`count = len(requests)` and the run-start timestamp. -/
theorem C5_count_and_timestamp_invariant_witness :
    (Barrage.outName "" 1 "",
      Barrage.buildRecord "https://www.iyf.tv/play/aaa" "" "" "2024-01-01T00:00:00+00:00"
        (Barrage.pageCaptureResult [Barrage.sampleBarrageResponse])).2.count
      = (Barrage.outName "" 1 "",
          Barrage.buildRecord "https://www.iyf.tv/play/aaa" "" "" "2024-01-01T00:00:00+00:00"
            (Barrage.pageCaptureResult [Barrage.sampleBarrageResponse])).2.requests.length
    ∧ (Barrage.outName "" 1 "",
        Barrage.buildRecord "https://www.iyf.tv/play/aaa" "" "" "2024-01-01T00:00:00+00:00"
          (Barrage.pageCaptureResult [Barrage.sampleBarrageResponse])).2.captured_at
      = "2024-01-01T00:00:00+00:00" := by
  exact C5_count_and_timestamp_invariant id "" "2024-01-01T00:00:00+00:00"
    [({ url := "https://www.iyf.tv/play/aaa", title := "" },
      Barrage.envOk [Barrage.sampleBarrageResponse])]
    _ (List.mem_singleton.mpr rfl)

/-- Claim C9: In a run whose visits all complete (no entry fails both
navigation attempts) over entries with pairwise distinct URLs (`main`
dedups by URL before the loop), an entry whose page visit yields zero
captured responses gets no output file — its URL is the source page of
no written record — and the run still visits every entry in list
order, unaborted. -/
theorem C9_empty_capture_skipped (nfkc : List Char → List Char)
    (series_name timestamp : String)
    (entries : List (Barrage.Entry × Barrage.VisitEnv))
    (hnav : ∀ p ∈ entries, p.2.nav ≠ Barrage.NavOutcome.bothFail)
    (hnodup : (entries.map (fun p => p.1.url)).Nodup) :
    (Barrage.runLoop nfkc series_name timestamp entries).visited
        = entries.map (fun p => p.1.url)
      ∧ (Barrage.runLoop nfkc series_name timestamp entries).aborted = false
      ∧ ∀ p ∈ entries, Barrage.pageCaptureResult p.2.responses = [] →
          p.1.url ∉ (Barrage.runLoop nfkc series_name timestamp entries).written.map
            (fun w => w.2.source_page) := by
  obtain ⟨ha, hv⟩ :=
    Barrage.runLoopFrom_no_abort nfkc series_name timestamp entries 1 hnav
  refine ⟨hv, ha, ?_⟩
  intro p hp hempty hmem
  obtain ⟨r, hr, hsp⟩ := List.mem_map.mp hmem
  obtain ⟨q, hq, hqsp, hqne⟩ :=
    Barrage.runLoopFrom_written_source nfkc series_name timestamp entries 1 r hr
  have hurl : (fun p => p.1.url) q = (fun p => p.1.url) p := by
    simp only []
    rw [← hqsp, hsp]
  have hqp : q = p := List.inj_on_of_nodup_map hnodup hq hp hurl
  rw [hqp, hempty] at hqne
  exact hqne rfl

/-- Witness for C9: a concrete run with a first entry capturing nothing
and a second entry capturing one response; both are visited, the run is
unaborted, and the first entry's URL backs no written record. -/
theorem C9_empty_capture_skipped_witness :
    (Barrage.runLoop id "" "2024-01-01T00:00:00+00:00"
        [({ url := "https://www.iyf.tv/play/aaa", title := "" }, Barrage.envOk []),
         ({ url := "https://www.iyf.tv/play/bbb", title := "" },
          Barrage.envOk [Barrage.sampleBarrageResponse])]).visited
        = ([({ url := "https://www.iyf.tv/play/aaa", title := "" }, Barrage.envOk []),
            ({ url := "https://www.iyf.tv/play/bbb", title := "" },
             Barrage.envOk [Barrage.sampleBarrageResponse])]
            : List (Barrage.Entry × Barrage.VisitEnv)).map (fun p => p.1.url)
      ∧ (Barrage.runLoop id "" "2024-01-01T00:00:00+00:00"
          [({ url := "https://www.iyf.tv/play/aaa", title := "" }, Barrage.envOk []),
           ({ url := "https://www.iyf.tv/play/bbb", title := "" },
            Barrage.envOk [Barrage.sampleBarrageResponse])]).aborted = false
      ∧ ∀ p ∈ ([({ url := "https://www.iyf.tv/play/aaa", title := "" }, Barrage.envOk []),
           ({ url := "https://www.iyf.tv/play/bbb", title := "" },
            Barrage.envOk [Barrage.sampleBarrageResponse])]
            : List (Barrage.Entry × Barrage.VisitEnv)),
          Barrage.pageCaptureResult p.2.responses = [] →
          p.1.url ∉ (Barrage.runLoop id "" "2024-01-01T00:00:00+00:00"
            [({ url := "https://www.iyf.tv/play/aaa", title := "" }, Barrage.envOk []),
             ({ url := "https://www.iyf.tv/play/bbb", title := "" },
              Barrage.envOk [Barrage.sampleBarrageResponse])]).written.map
              (fun w => w.2.source_page) := by
  exact C9_empty_capture_skipped id "" "2024-01-01T00:00:00+00:00"
    [({ url := "https://www.iyf.tv/play/aaa", title := "" }, Barrage.envOk []),
     ({ url := "https://www.iyf.tv/play/bbb", title := "" },
      Barrage.envOk [Barrage.sampleBarrageResponse])]
    (by decide) (by decide)

/-- Claim C10: Output filenames are not unique across entries: in a
concrete run with `--series-name "MyShow"` and two distinct entries
sharing the sanitized title `"SameTitle"`, the index appears nowhere in
the name, both entries' files are computed as
`MyShow_SameTitle_barrage.json`, and the second write targets the same
path as the first (so the later record overwrites the earlier one). -/
theorem C10_filename_collision :
    (Barrage.runLoop id "MyShow" "2024-01-01T00:00:00+00:00"
        [({ url := "https://www.iyf.tv/play/aaa?id=1", title := "SameTitle" },
          Barrage.envOk [Barrage.sampleBarrageResponse]),
         ({ url := "https://www.iyf.tv/play/aaa?id=2", title := "SameTitle" },
          Barrage.envOk [Barrage.sampleBarrageResponse])]).written.map
        (fun w => (w.1, w.2.source_page))
      = [("MyShow_SameTitle_barrage.json", "https://www.iyf.tv/play/aaa?id=1"),
         ("MyShow_SameTitle_barrage.json", "https://www.iyf.tv/play/aaa?id=2")]
    ∧ ("https://www.iyf.tv/play/aaa?id=1" : String)
        ≠ "https://www.iyf.tv/play/aaa?id=2" := by
  exact ⟨rfl, by decide⟩

namespace Barrage

theorem containsSub_of_append (a b h : String)
    (hc : containsSub (a ++ b) h = true) : containsSub b h = true := by
  simp only [containsSub, decide_eq_true_eq, String.data_append] at hc ⊢
  exact List.IsInfix.trans ((List.suffix_append a.data b.data).isInfix) hc

theorem episodeLoop_kept_contains (S : String) (hS : S ≠ "")
    (seen : List String) (l : List Anchor) (e : Entry)
    (he : e ∈ episodeLoop (some S) seen l) :
    containsSub ("/play/" ++ S) e.url = true := by
  induction l generalizing seen with
  | nil => simp [episodeLoop] at he
  | cons a rest ih =>
    by_cases h0 : a.href = ""
    · rw [show episodeLoop (some S) seen (a :: rest)
          = episodeLoop (some S) seen rest from by
        simp [episodeLoop, h0]] at he
      exact ih seen he
    · have htruthy : slugTruthy (some S) = true := by
        simp [slugTruthy, hS]
      by_cases hfilter : containsSub ("/play/" ++ S) a.href
      · by_cases hseen : a.href ∈ seen
        · rw [show episodeLoop (some S) seen (a :: rest)
              = episodeLoop (some S) seen rest from by
            simp [episodeLoop, h0, htruthy, hfilter, hseen,
              Option.getD]] at he
          exact ih seen he
        · rw [show episodeLoop (some S) seen (a :: rest)
              = { url := a.href, title := a.text }
                :: episodeLoop (some S) (a.href :: seen) rest from by
            simp [episodeLoop, h0, htruthy, hfilter, hseen,
              Option.getD]] at he
          rcases List.mem_cons.mp he with rfl | he
          · exact hfilter
          · exact ih (a.href :: seen) he
      · rw [show episodeLoop (some S) seen (a :: rest)
            = episodeLoop (some S) seen rest from by
          simp only [episodeLoop, if_neg h0]
          rw [if_pos]
          simp [htruthy, Option.getD,
            Bool.eq_false_iff.mpr hfilter]] at he
        exact ih seen he

theorem episodeLoop_passing_kept (S : String) (hS : S ≠ "")
    (seen : List String) (l : List Anchor) (a : Anchor) (ha : a ∈ l)
    (h0 : a.href ≠ "") (hc : containsSub ("/play/" ++ S) a.href = true) :
    (∃ e ∈ episodeLoop (some S) seen l, e.url = a.href) ∨ a.href ∈ seen := by
  induction l generalizing seen with
  | nil => simp at ha
  | cons b rest ih =>
    have htruthy : slugTruthy (some S) = true := by
      simp [slugTruthy, hS]
    by_cases hb0 : b.href = ""
    · rw [show episodeLoop (some S) seen (b :: rest)
          = episodeLoop (some S) seen rest from by
        simp [episodeLoop, hb0]]
      rcases List.mem_cons.mp ha with rfl | ha
      · exact absurd hb0 h0
      · exact ih seen ha
    · by_cases hbf : containsSub ("/play/" ++ S) b.href
      · by_cases hbseen : b.href ∈ seen
        · rw [show episodeLoop (some S) seen (b :: rest)
              = episodeLoop (some S) seen rest from by
            simp [episodeLoop, hb0, htruthy, hbf, hbseen, Option.getD]]
          rcases List.mem_cons.mp ha with rfl | ha
          · exact Or.inr hbseen
          · exact ih seen ha
        · rw [show episodeLoop (some S) seen (b :: rest)
              = { url := b.href, title := b.text }
                :: episodeLoop (some S) (b.href :: seen) rest from by
            simp [episodeLoop, hb0, htruthy, hbf, hbseen, Option.getD]]
          rcases List.mem_cons.mp ha with rfl | ha
          · exact Or.inl ⟨_, List.mem_cons_self _ _, rfl⟩
          · rcases ih (b.href :: seen) ha with ⟨e, he, heq⟩ | hseen
            · exact Or.inl ⟨e, List.mem_cons_of_mem _ he, heq⟩
            · rcases List.mem_cons.mp hseen with heq | hseen
              · exact Or.inl ⟨_, List.mem_cons_self _ _, heq.symm⟩
              · exact Or.inr hseen
      · rw [show episodeLoop (some S) seen (b :: rest)
            = episodeLoop (some S) seen rest from by
          simp only [episodeLoop, if_neg hb0]
          rw [if_pos]
          simp [htruthy, Option.getD, Bool.eq_false_iff.mpr hbf]]
        rcases List.mem_cons.mp ha with rfl | ha
        · exact absurd hc hbf
        · exact ih seen ha

end Barrage

/-- Claim C4, counterexample: The claim says an anchor is kept if and
only if its href contains the derived slug `S` as a substring.  For
the listing path `/play/abc` (slug `abc`) and a single anchor whose
href `https://www.iyf.tv/play/def?ref=abc` does contain `abc`, the
claim requires the anchor to be kept, but the resolver drops it: the
filter tests containment of `f"/play/{base_slug}"`, i.e. `/play/abc`,
which this href lacks. -/
theorem C4_bare_slug_containment_not_kept :
    Barrage.extract_episode_urls "/play/abc"
        [{ href := "https://www.iyf.tv/play/def?ref=abc", text := "" }] = []
      ∧ Barrage.base_slug "/play/abc" = some "abc"
      ∧ Barrage.containsSub "abc" "https://www.iyf.tv/play/def?ref=abc" = true := by
  refine ⟨?_, ?_, ?_⟩ <;> rfl

/-- Claim C4, amended: For every listing page whose parsed path yields a
(nonempty) slug `S`, the Episode Resolver keeps an extracted anchor
(before dedup by href) if and only if its href contains `"/play/" ++ S`
as a substring: every output entry's href contains `/play/S` (and hence
also `S`), and no anchor with a nonempty href containing `/play/S` is
dropped by the cross-show filter — it reaches the output (possibly
merged with an earlier duplicate of the same href). -/
theorem C4_filter_keeps_play_slug (path : String) (anchors : List Barrage.Anchor)
    (S : String) (hslug : Barrage.base_slug path = some S) (hS : S ≠ "") :
    (∀ e ∈ Barrage.extract_episode_urls path anchors,
        Barrage.containsSub ("/play/" ++ S) e.url = true
        ∧ Barrage.containsSub S e.url = true)
      ∧ ∀ a ∈ anchors, a.href ≠ "" →
          Barrage.containsSub ("/play/" ++ S) a.href = true →
          ∃ e ∈ Barrage.extract_episode_urls path anchors, e.url = a.href := by
  constructor
  · intro e he
    rw [Barrage.extract_episode_urls] at he
    by_cases hnil : anchors.isEmpty
    · rw [if_pos hnil] at he
      simp at he
    · rw [if_neg hnil, hslug] at he
      have h1 := Barrage.episodeLoop_kept_contains S hS [] anchors e he
      exact ⟨h1, Barrage.containsSub_of_append "/play/" S e.url h1⟩
  · intro a ha h0 hc
    rw [Barrage.extract_episode_urls]
    have hnil : anchors.isEmpty = false := by
      cases anchors with
      | nil => simp at ha
      | cons b rest => rfl
    rw [hnil]
    simp only [Bool.false_eq_true, if_false, hslug]
    rcases Barrage.episodeLoop_passing_kept S hS [] anchors a ha h0 hc with h | h
    · exact h
    · simp at h

/-- Witness for C4 (amended): the listing path `/play/abc` derives the
nonempty slug `abc`; the single anchor's href contains `/play/abc`, so
it is kept, its entry's href containing both `/play/abc` and `abc`. -/
theorem C4_filter_keeps_play_slug_witness :
    (∀ e ∈ Barrage.extract_episode_urls "/play/abc"
        [{ href := "https://www.iyf.tv/play/abc?ep=2", text := "EP2" }],
        Barrage.containsSub ("/play/" ++ "abc") e.url = true
        ∧ Barrage.containsSub "abc" e.url = true)
      ∧ ∀ a ∈ [({ href := "https://www.iyf.tv/play/abc?ep=2", text := "EP2" }
            : Barrage.Anchor)], a.href ≠ "" →
          Barrage.containsSub ("/play/" ++ "abc") a.href = true →
          ∃ e ∈ Barrage.extract_episode_urls "/play/abc"
            [{ href := "https://www.iyf.tv/play/abc?ep=2", text := "EP2" }],
            e.url = a.href := by
  exact C4_filter_keeps_play_slug "/play/abc"
    [{ href := "https://www.iyf.tv/play/abc?ep=2", text := "EP2" }]
    "abc" (by rfl) (by decide)

namespace Barrage

theorem allowed_not_reserved (c : Char) (h : isAllowedChar c = true) :
    isReserved c = false := by
  cases hr : isReserved c with
  | false => rfl
  | true =>
    exfalso
    simp only [isReserved, reservedChars, List.contains_eq_any_beq] at hr
    simp at hr
    rcases hr with rfl | rfl | rfl | rfl | rfl | rfl | rfl | rfl | rfl <;>
      exact absurd h (by decide)

theorem allowed_not_ws (c : Char) (h : isAllowedChar c = true) :
    c.isWhitespace = false := by
  cases hw : c.isWhitespace with
  | false => rfl
  | true =>
    exfalso
    simp only [Char.isWhitespace, Bool.or_eq_true, decide_eq_true_eq] at hw
    rcases hw with ((rfl | rfl) | rfl) | rfl <;> exact absurd h (by decide)

theorem slugChar_not_reserved (c : Char) (h : isSlugChar c = true) :
    isReserved c = false := by
  cases hr : isReserved c with
  | false => rfl
  | true =>
    exfalso
    simp only [isReserved, reservedChars, List.contains_eq_any_beq] at hr
    simp at hr
    rcases hr with rfl | rfl | rfl | rfl | rfl | rfl | rfl | rfl | rfl <;>
      exact absurd h (by decide)

theorem mem_replaceRunsAux (p : Char → Bool) (r : Char) (l : List Char)
    (b : Bool) (c : Char) (hc : c ∈ replaceRunsAux p r b l) :
    c = r ∨ (c ∈ l ∧ p c = false) := by
  induction l generalizing b with
  | nil => simp [replaceRunsAux] at hc
  | cons d ds ih =>
    by_cases hd : p d
    · cases b with
      | true =>
        rw [show replaceRunsAux p r true (d :: ds) = replaceRunsAux p r true ds from by
          simp [replaceRunsAux, hd]] at hc
        rcases ih true hc with h | ⟨h1, h2⟩
        · exact Or.inl h
        · exact Or.inr ⟨List.mem_cons_of_mem _ h1, h2⟩
      | false =>
        rw [show replaceRunsAux p r false (d :: ds) = r :: replaceRunsAux p r true ds from by
          simp [replaceRunsAux, hd]] at hc
        rcases List.mem_cons.mp hc with rfl | hc
        · exact Or.inl rfl
        · rcases ih true hc with h | ⟨h1, h2⟩
          · exact Or.inl h
          · exact Or.inr ⟨List.mem_cons_of_mem _ h1, h2⟩
    · rw [show replaceRunsAux p r b (d :: ds) = d :: replaceRunsAux p r false ds from by
        cases b <;> simp [replaceRunsAux, hd]] at hc
      rcases List.mem_cons.mp hc with rfl | hc
      · exact Or.inr ⟨List.mem_cons_self _ _, Bool.eq_false_iff.mpr hd⟩
      · rcases ih false hc with h | ⟨h1, h2⟩
        · exact Or.inl h
        · exact Or.inr ⟨List.mem_cons_of_mem _ h1, h2⟩

theorem replaceRunsAux_eq_self (p : Char → Bool) (r : Char) (l : List Char)
    (b : Bool) (h : ∀ c ∈ l, p c = false) : replaceRunsAux p r b l = l := by
  induction l generalizing b with
  | nil => rfl
  | cons d ds ih =>
    have hd : p d = false := h d (List.mem_cons_self _ _)
    rw [show replaceRunsAux p r b (d :: ds) = d :: replaceRunsAux p r false ds from by
      cases b <;> simp [replaceRunsAux, hd]]
    rw [ih false (fun c hc => h c (List.mem_cons_of_mem _ hc))]

theorem head?_replaceRunsAux_true (p : Char → Bool) (r : Char) (l : List Char)
    (c : Char) (hc : (replaceRunsAux p r true l).head? = some c) : p c = false := by
  induction l with
  | nil => simp [replaceRunsAux] at hc
  | cons d ds ih =>
    by_cases hd : p d
    · rw [show replaceRunsAux p r true (d :: ds) = replaceRunsAux p r true ds from by
        simp [replaceRunsAux, hd]] at hc
      exact ih hc
    · rw [show replaceRunsAux p r true (d :: ds) = d :: replaceRunsAux p r false ds from by
        simp [replaceRunsAux, hd]] at hc
      simp only [List.head?_cons, Option.some.injEq] at hc
      exact hc ▸ Bool.eq_false_iff.mpr hd

theorem dropWhile_eq_self_of_head (p : Char → Bool) (l : List Char)
    (h : ∀ c, l.head? = some c → p c = false) : l.dropWhile p = l := by
  cases l with
  | nil => rfl
  | cons c cs => simp [List.dropWhile_cons, h c rfl]

theorem stripEdge_eq_self (p : Char → Bool) (l : List Char)
    (hh : ∀ c, l.head? = some c → p c = false)
    (hl : ∀ c, l.getLast? = some c → p c = false) : stripEdge p l = l := by
  unfold stripEdge
  rw [dropWhile_eq_self_of_head p l hh]
  rw [dropWhile_eq_self_of_head p l.reverse (fun c hc => by
    rw [List.head?_reverse] at hc
    exact hl c hc)]
  exact List.reverse_reverse l

theorem stripEdge_eq_self_of_all (p : Char → Bool) (l : List Char)
    (h : ∀ c ∈ l, p c = false) : stripEdge p l = l := by
  refine stripEdge_eq_self p l (fun c hc => ?_) (fun c hc => ?_)
  · exact h c (List.mem_of_mem_head? hc)
  · exact h c (List.mem_of_mem_getLast? hc)

theorem mem_stripEdge (p : Char → Bool) (l : List Char) (c : Char)
    (hc : c ∈ stripEdge p l) : c ∈ l := by
  unfold stripEdge at hc
  rw [List.mem_reverse] at hc
  have h1 := List.dropWhile_subset p hc
  rw [List.mem_reverse] at h1
  exact List.dropWhile_subset p h1

theorem map_reserved_eq_self (l : List Char)
    (h : ∀ c ∈ l, isReserved c = false) :
    l.map (fun c => if isReserved c then '-' else c) = l := by
  induction l with
  | nil => rfl
  | cons d ds ih =>
    simp only [List.map_cons, h d (List.mem_cons_self _ _), if_false,
      Bool.false_eq_true]
    rw [ih (fun c hc => h c (List.mem_cons_of_mem _ hc))]

end Barrage

namespace Barrage

theorem chain'_replaceRunsAux (p : Char → Bool) (r : Char) (l : List Char)
    (b : Bool) :
    List.Chain' (fun a c => ¬(p a = true ∧ p c = true)) (replaceRunsAux p r b l) := by
  induction l generalizing b with
  | nil => simp [replaceRunsAux]
  | cons d ds ih =>
    by_cases hd : p d
    · cases b with
      | true =>
        rw [show replaceRunsAux p r true (d :: ds) = replaceRunsAux p r true ds from by
          simp [replaceRunsAux, hd]]
        exact ih true
      | false =>
        rw [show replaceRunsAux p r false (d :: ds) = r :: replaceRunsAux p r true ds from by
          simp [replaceRunsAux, hd]]
        refine List.chain'_cons'.mpr ⟨?_, ih true⟩
        intro y hy
        intro ⟨_, hpy⟩
        rw [head?_replaceRunsAux_true p r ds y hy] at hpy
        exact Bool.false_ne_true hpy
    · rw [show replaceRunsAux p r b (d :: ds) = d :: replaceRunsAux p r false ds from by
        cases b <;> simp [replaceRunsAux, hd]]
      refine List.chain'_cons'.mpr ⟨?_, ih false⟩
      intro y _
      intro ⟨hpd, _⟩
      exact hd hpd

theorem chain'_preserved_replaceRunsAux (Q : Char → Char → Prop)
    (p : Char → Bool) (r : Char)
    (h1 : ∀ x, Q x r) (h2 : ∀ y, Q r y) (l : List Char) (b : Bool)
    (hQ : List.Chain' Q l) : List.Chain' Q (replaceRunsAux p r b l) := by
  induction l generalizing b with
  | nil => simp [replaceRunsAux]
  | cons d ds ih =>
    by_cases hd : p d
    · cases b with
      | true =>
        rw [show replaceRunsAux p r true (d :: ds) = replaceRunsAux p r true ds from by
          simp [replaceRunsAux, hd]]
        exact ih true hQ.tail
      | false =>
        rw [show replaceRunsAux p r false (d :: ds) = r :: replaceRunsAux p r true ds from by
          simp [replaceRunsAux, hd]]
        exact List.chain'_cons'.mpr ⟨fun y _ => h2 y, ih true hQ.tail⟩
    · rw [show replaceRunsAux p r b (d :: ds) = d :: replaceRunsAux p r false ds from by
        cases b <;> simp [replaceRunsAux, hd]]
      refine List.chain'_cons'.mpr ⟨?_, ih false hQ.tail⟩
      intro y hy
      cases ds with
      | nil => simp [replaceRunsAux] at hy
      | cons e es =>
        by_cases he : p e
        · rw [show replaceRunsAux p r false (e :: es) = r :: replaceRunsAux p r true es from by
            simp [replaceRunsAux, he]] at hy
          simp only [List.head?_cons, Option.mem_def, Option.some.injEq] at hy
          exact hy ▸ h1 d
        · rw [show replaceRunsAux p r false (e :: es) = e :: replaceRunsAux p r false es from by
            simp [replaceRunsAux, he]] at hy
          simp only [List.head?_cons, Option.mem_def, Option.some.injEq] at hy
          have := (List.chain'_cons'.mp hQ).1 e (by simp)
          exact hy ▸ this

theorem replaceRunsAux_id_of_chain (p : Char → Bool) (r : Char)
    (hpr : ∀ c, p c = true → c = r) (l : List Char)
    (hQ : List.Chain' (fun a c => ¬(p a = true ∧ p c = true)) l) :
    replaceRunsAux p r false l = l := by
  induction l with
  | nil => rfl
  | cons d ds ih =>
    by_cases hd : p d
    · rw [show replaceRunsAux p r false (d :: ds) = r :: replaceRunsAux p r true ds from by
        simp [replaceRunsAux, hd]]
      cases ds with
      | nil =>
        rw [show replaceRunsAux p r true ([] : List Char) = [] from rfl, hpr d hd]
      | cons e es =>
        have hne : p e = false := by
          have := (List.chain'_cons'.mp hQ).1 e (by simp)
          cases he : p e with
          | false => rfl
          | true => exact absurd ⟨hd, he⟩ this
        have h1 : replaceRunsAux p r true (e :: es) = replaceRunsAux p r false (e :: es) := by
          simp [replaceRunsAux, hne]
        rw [h1, ih hQ.tail, hpr d hd]
    · rw [show replaceRunsAux p r false (d :: ds) = d :: replaceRunsAux p r false ds from by
        simp [replaceRunsAux, hd]]
      rw [ih hQ.tail]

theorem chain'_stripEdge (Q : Char → Char → Prop) (p : Char → Bool)
    (l : List Char) (hQ : List.Chain' Q l) :
    List.Chain' Q (stripEdge p l) := by
  unfold stripEdge
  have h1 : List.Chain' Q (l.dropWhile p) :=
    hQ.suffix (List.dropWhile_suffix p)
  have h2 : List.Chain' (flip Q) (l.dropWhile p).reverse := by
    rw [List.chain'_reverse]
    exact h1.imp (fun a b hab => hab)
  have h3 : List.Chain' (flip Q) ((l.dropWhile p).reverse.dropWhile p) :=
    h2.suffix (List.dropWhile_suffix p)
  rw [List.chain'_reverse]
  exact h3

theorem head?_dropWhile_not (p : Char → Bool) (l : List Char) (c : Char)
    (hc : (l.dropWhile p).head? = some c) : p c = false := by
  induction l with
  | nil => simp at hc
  | cons d ds ih =>
    by_cases hd : p d
    · rw [show List.dropWhile p (d :: ds) = List.dropWhile p ds from by
        simp [List.dropWhile_cons, hd]] at hc
      exact ih hc
    · rw [show List.dropWhile p (d :: ds) = d :: ds from by
        simp [List.dropWhile_cons, hd]] at hc
      simp only [List.head?_cons, Option.some.injEq] at hc
      exact hc ▸ Bool.eq_false_iff.mpr hd

theorem getLast?_stripEdge_not (p : Char → Bool) (l : List Char) (c : Char)
    (hc : (stripEdge p l).getLast? = some c) : p c = false := by
  unfold stripEdge at hc
  rw [List.getLast?_reverse] at hc
  exact head?_dropWhile_not p _ c hc

theorem getLast?_dropWhile (p : Char → Bool) (l : List Char)
    (hne : l.dropWhile p ≠ []) : (l.dropWhile p).getLast? = l.getLast? := by
  induction l with
  | nil => simp at hne
  | cons d ds ih =>
    by_cases hd : p d
    · rw [show List.dropWhile p (d :: ds) = List.dropWhile p ds from by
        simp [List.dropWhile_cons, hd]] at hne ⊢
      rw [ih hne]
      cases ds with
      | nil => simp [List.dropWhile] at hne
      | cons e es => rw [List.getLast?_cons_cons]
    · rw [show List.dropWhile p (d :: ds) = d :: ds from by
        simp [List.dropWhile_cons, hd]]

theorem head?_stripEdge_not (p : Char → Bool) (l : List Char) (c : Char)
    (hc : (stripEdge p l).head? = some c) : p c = false := by
  unfold stripEdge at hc
  rw [List.head?_reverse] at hc
  by_cases hne : (l.dropWhile p).reverse.dropWhile p = []
  · rw [hne] at hc
    simp at hc
  · rw [getLast?_dropWhile p _ hne, List.getLast?_reverse] at hc
    exact head?_dropWhile_not p l c hc

end Barrage

namespace Barrage

theorem allAllowed_sanitizePost (t : List Char) :
    ∀ c ∈ sanitizePost t, isAllowedChar c = true := by
  intro c hc
  have hc5 : c ∈ replaceRuns (fun c => c == '_') '_'
      (replaceRuns (fun c => c == '-') '-'
        (replaceRuns (fun c => !isAllowedChar c) '-'
          (replaceRuns Char.isWhitespace '_'
            (t.map (fun c => if isReserved c then '-' else c))))) :=
    mem_stripEdge _ _ c hc
  rcases mem_replaceRunsAux _ _ _ _ c hc5 with rfl | ⟨hc4, _⟩
  · decide
  · rcases mem_replaceRunsAux _ _ _ _ c hc4 with rfl | ⟨hc3, _⟩
    · decide
    · rcases mem_replaceRunsAux _ _ _ _ c hc3 with rfl | ⟨_, hna⟩
      · decide
      · simpa using hna

theorem chainD_sanitizePost (t : List Char) :
    List.Chain' (fun a b => ¬((a == '-') = true ∧ (b == '-') = true))
      (sanitizePost t) := by
  refine chain'_stripEdge _ isPySep _ ?_
  refine chain'_preserved_replaceRunsAux _ (fun c => c == '_') '_' ?_ ?_ _ false ?_
  · intro x
    intro ⟨_, h⟩
    exact absurd h (by decide)
  · intro y
    intro ⟨h, _⟩
    exact absurd h (by decide)
  · exact chain'_replaceRunsAux (fun c => c == '-') '-' _ false

theorem chainU_sanitizePost (t : List Char) :
    List.Chain' (fun a b => ¬((a == '_') = true ∧ (b == '_') = true))
      (sanitizePost t) := by
  refine chain'_stripEdge _ isPySep _ ?_
  exact chain'_replaceRunsAux (fun c => c == '_') '_' _ false

theorem head?_sanitizePost_not (t : List Char) (c : Char)
    (hc : (sanitizePost t).head? = some c) : isPySep c = false :=
  head?_stripEdge_not isPySep _ c hc

theorem getLast?_sanitizePost_not (t : List Char) (c : Char)
    (hc : (sanitizePost t).getLast? = some c) : isPySep c = false :=
  getLast?_stripEdge_not isPySep _ c hc

theorem sanitizePost_fixes (l : List Char)
    (hall : ∀ c ∈ l, isAllowedChar c = true)
    (hd : List.Chain' (fun a b => ¬((a == '-') = true ∧ (b == '-') = true)) l)
    (hu : List.Chain' (fun a b => ¬((a == '_') = true ∧ (b == '_') = true)) l)
    (hh : ∀ c, l.head? = some c → isPySep c = false)
    (hl : ∀ c, l.getLast? = some c → isPySep c = false) :
    sanitizePost l = l := by
  have e1 : l.map (fun c => if isReserved c then '-' else c) = l :=
    map_reserved_eq_self l (fun c hc => allowed_not_reserved c (hall c hc))
  have e2 : replaceRuns Char.isWhitespace '_' l = l :=
    replaceRunsAux_eq_self _ _ l false (fun c hc => allowed_not_ws c (hall c hc))
  have e3 : replaceRuns (fun c => !isAllowedChar c) '-' l = l :=
    replaceRunsAux_eq_self _ _ l false (fun c hc => by rw [hall c hc]; rfl)
  have e4 : replaceRuns (fun c => c == '-') '-' l = l :=
    replaceRunsAux_id_of_chain _ _ (fun c h => eq_of_beq h) l hd
  have e5 : replaceRuns (fun c => c == '_') '_' l = l :=
    replaceRunsAux_id_of_chain _ _ (fun c h => eq_of_beq h) l hu
  show stripEdge isPySep
    (replaceRuns (fun c => c == '_') '_'
      (replaceRuns (fun c => c == '-') '-'
        (replaceRuns (fun c => !isAllowedChar c) '-'
          (replaceRuns Char.isWhitespace '_'
            (l.map (fun c => if isReserved c then '-' else c)))))) = l
  rw [e1, e2, e3, e4, e5]
  exact stripEdge_eq_self isPySep l hh hl

theorem sanitizeCore_fixes_core (nfkc : List Char → List Char)
    (hfix : ∀ l : List Char, (∀ c ∈ l, isAllowedChar c = true) → nfkc l = l)
    (t : List Char) :
    sanitizeCore nfkc (sanitizePost t) = sanitizePost t := by
  have hall := allAllowed_sanitizePost t
  show sanitizePost (nfkc (stripEdge Char.isWhitespace (sanitizePost t)))
      = sanitizePost t
  rw [stripEdge_eq_self_of_all _ _ (fun c hc => allowed_not_ws c (hall c hc))]
  rw [hfix _ hall]
  exact sanitizePost_fixes _ hall (chainD_sanitizePost t) (chainU_sanitizePost t)
    (head?_sanitizePost_not t) (getLast?_sanitizePost_not t)

end Barrage

/-- Claim C7: For every input string (and any behaviour of the external
Unicode normalizer), the Label Sanitizer's output contains no character
from the reserved set `\ / : * ? " < > |` and is never the empty
string; when the sanitizing pipeline leaves nothing, the output is the
fixed fallback label — `"episode"` for `sanitize_label`, `"barrage"`
for the URL-derived `slug_from_url`, whose output likewise contains no
reserved character and is never empty. -/
theorem C7_sanitize_safe (nfkc : List Char → List Char) (label url : String) :
    (∀ c ∈ (Barrage.sanitize_label nfkc label).data, Barrage.isReserved c = false)
      ∧ Barrage.sanitize_label nfkc label ≠ ""
      ∧ (Barrage.sanitizeCore nfkc label.data = [] →
          Barrage.sanitize_label nfkc label = "episode")
      ∧ (∀ c ∈ (Barrage.slug_from_url url).data, Barrage.isReserved c = false)
      ∧ Barrage.slug_from_url url ≠ ""
      ∧ (Barrage.slugCore url = [] → Barrage.slug_from_url url = "barrage") := by
  refine ⟨?_, ?_, ?_, ?_, ?_, ?_⟩
  · intro c hc
    by_cases he : (Barrage.sanitizeCore nfkc label.data).isEmpty
    · rw [show Barrage.sanitize_label nfkc label = "episode" from by
        simp [Barrage.sanitize_label, he]] at hc
      fin_cases hc <;> decide
    · rw [show Barrage.sanitize_label nfkc label
          = String.mk (Barrage.sanitizeCore nfkc label.data) from by
        simp [Barrage.sanitize_label, he]] at hc
      exact Barrage.allowed_not_reserved c
        (Barrage.allAllowed_sanitizePost _ c hc)
  · by_cases he : (Barrage.sanitizeCore nfkc label.data).isEmpty
    · rw [show Barrage.sanitize_label nfkc label = "episode" from by
        simp [Barrage.sanitize_label, he]]
      decide
    · rw [show Barrage.sanitize_label nfkc label
          = String.mk (Barrage.sanitizeCore nfkc label.data) from by
        simp [Barrage.sanitize_label, he]]
      intro hcon
      have : Barrage.sanitizeCore nfkc label.data = [] := congrArg String.data hcon
      rw [this] at he
      exact he rfl
  · intro h
    simp [Barrage.sanitize_label, h]
  · intro c hc
    by_cases he : (Barrage.slugCore url).isEmpty
    · rw [show Barrage.slug_from_url url = "barrage" from by
        simp [Barrage.slug_from_url, he]] at hc
      fin_cases hc <;> decide
    · rw [show Barrage.slug_from_url url = String.mk (Barrage.slugCore url) from by
        simp [Barrage.slug_from_url, he]] at hc
      rcases Barrage.mem_replaceRunsAux _ _ _ _ c hc with rfl | ⟨_, hs⟩
      · decide
      · exact Barrage.slugChar_not_reserved c (by simpa using hs)
  · by_cases he : (Barrage.slugCore url).isEmpty
    · rw [show Barrage.slug_from_url url = "barrage" from by
        simp [Barrage.slug_from_url, he]]
      decide
    · rw [show Barrage.slug_from_url url = String.mk (Barrage.slugCore url) from by
        simp [Barrage.slug_from_url, he]]
      intro hcon
      have : Barrage.slugCore url = [] := congrArg String.data hcon
      rw [this] at he
      exact he rfl
  · intro h
    simp [Barrage.slug_from_url, h]

/-- Witness for C7: the label `"!!!"` sanitizes to nothing, so the
fallback `"episode"` is returned; the URL `"https://"` reduces to the
empty slug, so `slug_from_url` returns `"barrage"`. -/
theorem C7_sanitize_safe_witness :
    Barrage.sanitize_label id "!!!" = "episode"
      ∧ Barrage.slug_from_url "https://" = "barrage" := by
  have h := C7_sanitize_safe id "!!!" "https://"
  exact ⟨h.2.2.1 rfl, h.2.2.2.2.2 rfl⟩

/-- Claim C8: The Label Sanitizer is idempotent: for every input string,
sanitizing an already-sanitized label yields the same label.  The
external Unicode normalizer enters through the hypothesis `hfix`: it
fixes every string made of the sanitizer's allowed characters (ASCII
alphanumerics, `.`, `-`, `_`, CJK ideographs) — true of the real NFKC
normalization, since all those characters are NFKC-stable. -/
theorem C8_sanitize_idempotent (nfkc : List Char → List Char)
    (hfix : ∀ l : List Char, (∀ c ∈ l, Barrage.isAllowedChar c = true) → nfkc l = l)
    (label : String) :
    Barrage.sanitize_label nfkc (Barrage.sanitize_label nfkc label)
      = Barrage.sanitize_label nfkc label := by
  by_cases he : (Barrage.sanitizeCore nfkc label.data).isEmpty
  · rw [show Barrage.sanitize_label nfkc label = "episode" from by
      simp [Barrage.sanitize_label, he]]
    have hepi : Barrage.sanitizeCore nfkc ("episode" : String).data
        = ("episode" : String).data := by
      show Barrage.sanitizePost
        (nfkc (Barrage.stripEdge Char.isWhitespace ("episode" : String).data))
        = ("episode" : String).data
      rw [show Barrage.stripEdge Char.isWhitespace ("episode" : String).data
          = ("episode" : String).data from rfl]
      rw [hfix ("episode" : String).data (by decide)]
      rfl
    simp [Barrage.sanitize_label, hepi]
  · rw [show Barrage.sanitize_label nfkc label
        = String.mk (Barrage.sanitizeCore nfkc label.data) from by
      simp [Barrage.sanitize_label, he]]
    have hfixcore : Barrage.sanitizeCore nfkc
        (String.mk (Barrage.sanitizeCore nfkc label.data)).data
        = Barrage.sanitizeCore nfkc label.data := by
      show Barrage.sanitizeCore nfkc
        (Barrage.sanitizePost (nfkc (Barrage.stripEdge Char.isWhitespace label.data)))
        = _
      exact Barrage.sanitizeCore_fixes_core nfkc hfix _
    rw [show Barrage.sanitize_label nfkc (String.mk (Barrage.sanitizeCore nfkc label.data))
        = if (Barrage.sanitizeCore nfkc
            (String.mk (Barrage.sanitizeCore nfkc label.data)).data).isEmpty
          then "episode"
          else String.mk (Barrage.sanitizeCore nfkc
            (String.mk (Barrage.sanitizeCore nfkc label.data)).data) from rfl]
    rw [hfixcore]
    simp [he]

/-- Witness for C8: with the normalizer instantiated to the identity
(which fixes everything), sanitizing `"  My:Show / EP*01  "` twice
yields the same label as sanitizing it once. -/
theorem C8_sanitize_idempotent_witness :
    Barrage.sanitize_label id (Barrage.sanitize_label id "  My:Show / EP*01  ")
      = Barrage.sanitize_label id "  My:Show / EP*01  " :=
  C8_sanitize_idempotent id (fun _ _ => rfl) "  My:Show / EP*01  "
